import Mathlib

/-!
Shallow embedding of the GitHub_Monitoring backend (Go) core logic:
token-pool credential rotation (`TokenPool.GetClient`), paginated code
search (`SearchService.SearchCode`), retry/backoff (`SearchWithRetry`),
query construction (`buildQuery`), result normalization
(`convertToSearchResultItem`), whitelist filtering, idempotent
persistence (`saveResults`) and per-rule scan classification (`scanRule`).

Modelling conventions:
- time is `Int` (unix seconds); Go's zero `time.Time` is modelled as `0`;
- machine integers are `Int`/`Nat` (no arithmetic here can overflow in Go);
- network effects (the rate-limit refresh endpoint, search pages) are
  oracles passed as function arguments; instrumentation (network-call
  count, acquired-token log, page-request log) is returned alongside
  results so that theorems can speak about the calls that occurred;
- the database is modelled as a list of de-duplication keys;
- `time.Sleep` calls are no-ops; backoff sleeps are returned as a log of
  durations in seconds.
-/

namespace GHM

/-- Rate mirrors `github.Rate` (the fields the repository reads):
`Limit`, `Remaining`, and `Reset.Time` as a unix timestamp. -/
structure Rate where
  limit : Int
  remaining : Int
  reset : Int
deriving Repr, DecidableEq

/-- TokenInfo mirrors `TokenInfo` in the token-pool file: the rate-limit
snapshot (`nil`-able pointer becomes `Option`) and the availability flag.
The `Token`/`Client`/`LastChecked` fields carry no logic and are omitted;
a token is identified by its index in the pool. -/
structure TokenInfo where
  rateLimit : Option Rate
  isAvailable : Bool
deriving Repr, DecidableEq

/-- TokenPool mirrors `TokenPool`: the token list and the round-robin
cursor `currentIndex`. -/
structure TokenPool where
  tokens : List TokenInfo
  currentIndex : Nat
deriving Repr, DecidableEq

/-- RateLimitFetch is the oracle outcome of one `t.Client.RateLimit.Get(ctx)`
network call: an error, or a response whose `Core` is `none` (Go:
`rateLimit == nil || rateLimit.Core == nil`) or carries a fresh `Rate`. -/
inductive RateLimitFetch where
  | err
  | ok (core : Option Rate)
deriving Repr, DecidableEq

/-- TokenInfo.updateRateLimit mirrors `TokenInfo.UpdateRateLimit` given the
oracle outcome of the network call: on error returns `none` (Go returns the
error); otherwise stores the fresh core snapshot when present and
auto-recovers availability when the fresh remaining exceeds 10. -/
def TokenInfo.updateRateLimit (t : TokenInfo) (o : RateLimitFetch) : Option TokenInfo :=
  match o with
  | .err => none
  | .ok none => some t
  | .ok (some r) =>
      some { rateLimit := some r,
             isAvailable := if r.remaining > 10 then true else t.isAvailable }

/-- TokenInfo.hasRemainingCalls mirrors `TokenInfo.HasRemainingCalls`:
a missing snapshot counts as available; a snapshot whose reset time has
passed (Go: `time.Now().After(reset)`, strict) counts as available; else
compare remaining against the threshold strictly. -/
def TokenInfo.hasRemainingCalls (t : TokenInfo) (now : Int) (threshold : Int) : Bool :=
  match t.rateLimit with
  | none => true
  | some r => if r.reset < now then true else decide (r.remaining > threshold)

/-- TokenPool.markTokenUnavailable mirrors `markTokenUnavailable`:
out-of-range indices are a no-op (Go bounds check). -/
def TokenPool.markTokenUnavailable (p : TokenPool) (i : Nat) : TokenPool :=
  match p.tokens[i]? with
  | some t => { p with tokens := p.tokens.set i { t with isAvailable := false } }
  | none => p

/-- TokenPool.setToken writes back a token mutated through its pointer in Go
(`tokenInfo` aliases `p.tokens[i]`). -/
def TokenPool.setToken (p : TokenPool) (i : Nat) (t : TokenInfo) : TokenPool :=
  { p with tokens := p.tokens.set i t }

/-- TokenPool.nextToken mirrors `nextToken`: advance the cursor modulo the
pool size. -/
def TokenPool.nextToken (p : TokenPool) : TokenPool :=
  { p with currentIndex := (p.currentIndex + 1) % p.tokens.length }

/-- minResetStep is the loop body of `getNextResetTime` acting on one
snapshot: keep the accumulator unless it is the zero time (0) or the new
reset is strictly earlier (Go: `nextReset.IsZero() || resetTime.Before(...)`). -/
def minResetStep (acc : Int) (rl : Option Rate) : Int :=
  match rl with
  | none => acc
  | some r => if acc = 0 ∨ r.reset < acc then r.reset else acc

/-- TokenPool.getNextResetTime mirrors `getNextResetTime`: the earliest
known reset time across all snapshots, 0 (zero time) when no token has
one. -/
def TokenPool.getNextResetTime (p : TokenPool) : Int :=
  p.tokens.foldl (fun acc t => minResetStep acc t.rateLimit) 0

/-- GetClientResult is the outcome of `TokenPool.GetClient`: a token (by
pool index), the typed "all tokens rate limited, next reset at T" error,
or the generic "no available tokens" error. -/
inductive GetClientResult where
  | ok (tokenIndex : Nat)
  | exhausted (nextReset : Int)
  | noAvailable
deriving Repr, DecidableEq

/-- getClientLoop is the selection loop of `TokenPool.GetClient`.
`fuel` is maintained as `maxAttempts - attempts`, so running out of fuel
is exactly the `for attempts < maxAttempts` condition failing (returning
the generic error). `upd` is the per-token-index outcome of the
rate-limit refresh network call; the last component counts those network
calls. The cycle check (Go lines: `currentIndex == startIndex && attempts
== maxAttempts`) runs after advancing in the unavailable and rate-limited
paths but is skipped by the `continue` in the refresh-error path. -/
def getClientLoop (upd : Nat → RateLimitFetch) (now : Int)
    (startIndex maxAttempts : Nat) :
    Nat → TokenPool → Nat → Nat → GetClientResult × TokenPool × Nat
  | 0, p, _attempts, calls => (.noAvailable, p, calls)
  | fuel + 1, p, attempts, calls =>
    match p.tokens[p.currentIndex]? with
    | none => (.noAvailable, p, calls)
    | some t =>
      if t.isAvailable then
        match t.updateRateLimit (upd p.currentIndex) with
        | none =>
            -- refresh failed: mark unavailable, advance, `continue`
            getClientLoop upd now startIndex maxAttempts fuel
              ((p.markTokenUnavailable p.currentIndex).nextToken) (attempts + 1) (calls + 1)
        | some t' =>
            let p1 := p.setToken p.currentIndex t'
            if t'.hasRemainingCalls now 10 then (.ok p.currentIndex, p1, calls + 1)
            else
              let p2 := (p1.markTokenUnavailable p1.currentIndex).nextToken
              if p2.currentIndex = startIndex ∧ attempts + 1 = maxAttempts then
                if p2.getNextResetTime ≠ 0 ∧ p2.getNextResetTime - now < 300 then
                  (.exhausted p2.getNextResetTime, p2, calls + 1)
                else getClientLoop upd now startIndex maxAttempts fuel p2 (attempts + 1) (calls + 1)
              else getClientLoop upd now startIndex maxAttempts fuel p2 (attempts + 1) (calls + 1)
      else
        let p2 := p.nextToken
        if p2.currentIndex = startIndex ∧ attempts + 1 = maxAttempts then
          if p2.getNextResetTime ≠ 0 ∧ p2.getNextResetTime - now < 300 then
            (.exhausted p2.getNextResetTime, p2, calls)
          else getClientLoop upd now startIndex maxAttempts fuel p2 (attempts + 1) calls
        else getClientLoop upd now startIndex maxAttempts fuel p2 (attempts + 1) calls

/-- TokenPool.getClient mirrors `TokenPool.GetClient`: run the selection
loop from the current cursor for at most one full cycle
(`maxAttempts = len(tokens)`). -/
def TokenPool.getClient (p : TokenPool) (upd : Nat → RateLimitFetch) (now : Int) :
    GetClientResult × TokenPool × Nat :=
  getClientLoop upd now p.currentIndex p.tokens.length p.tokens.length p 0 0

/-- containsSubList decides whether `needle` occurs contiguously in the
second list. -/
def containsSubList (needle : List Char) : List Char → Bool
  | [] => needle.isEmpty
  | h :: tl => needle.isPrefixOf (h :: tl) || containsSubList needle tl

/-- strContains mirrors Go's `strings.Contains`: substring containment. -/
def strContains (hay needle : String) : Bool :=
  containsSubList needle.toList hay.toList

/-- Repository carries the two fields the search code reads from
`github.Repository` (nil pointers collapse to the accessor zero values,
as Go's `GetFullName`/`GetHTMLURL` do). -/
structure Repository where
  fullName : String
  htmlURL : String
deriving Repr, DecidableEq

/-- TextMatch carries the fragment read from `github.TextMatch`. -/
structure TextMatch where
  fragment : String
deriving Repr, DecidableEq

/-- CodeResult mirrors the fields of `github.CodeResult` read by the
repository, plus the per-item relevance score reported by the upstream
search API response (which the repository's conversion never reads). A
Go `nil` slice is `none`; a non-nil empty slice is `some []`. -/
structure CodeResult where
  name : String
  path : String
  htmlURL : String
  repository : Option Repository
  textMatches : Option (List TextMatch)
  score : Option Rat
deriving Repr, DecidableEq

/-- SearchResultItem mirrors `SearchResultItem` (the normalized match
candidate). `score` is a rational standing in for Go's `float64` (only
the constant 1.0 ever occurs). -/
structure SearchResultItem where
  repoFullName : String
  repoURL : String
  filePath : String
  fileURL : String
  htmlURL : String
  matchedKeywords : List String
  contentSnippet : String
  score : Rat
  createdAt : Int
deriving Repr, DecidableEq

/-- SearchOptions mirrors `SearchOptions`. -/
structure SearchOptions where
  keywords : List String
  matchType : String
  excludeExts : List String
  language : String
  sort : String
  order : String
deriving Repr, DecidableEq

/-- stripLeadingDot mirrors `strings.TrimPrefix(ext, ".")`. -/
def stripLeadingDot (s : String) : String :=
  match s.toList with
  | '.' :: rest => ⟨rest⟩
  | _ => s

/-- strToLower mirrors `strings.ToLower` (character-wise, sufficient for
the ASCII inputs involved). -/
def strToLower (s : String) : String :=
  ⟨s.toList.map Char.toLower⟩

/-- buildQuery mirrors `SearchService.buildQuery`: quote keywords in
"precise" mode, leave them bare otherwise, skip empty keywords, join with
spaces, then append one `-extension:` clause per non-empty excluded
extension (leading dot trimmed) and a `language:` clause when set. -/
def buildQuery (opts : SearchOptions) : String :=
  let queryParts :=
    if opts.matchType = "precise" then
      (opts.keywords.filter (fun k => k ≠ "")).map (fun k => "\"" ++ k ++ "\"")
    else
      opts.keywords.filter (fun k => k ≠ "")
  let query := String.intercalate " " queryParts
  let query := opts.excludeExts.foldl
    (fun q ext => if ext ≠ "" then q ++ " -extension:" ++ stripLeadingDot ext else q) query
  if opts.language ≠ "" then query ++ " language:" ++ opts.language else query

/-- findMatchedKeywords mirrors `findMatchedKeywords`: lowercase
concatenation of name, path and all text-match fragments; a non-empty
keyword is matched when its lowercase form occurs in that concatenation. -/
def findMatchedKeywords (result : CodeResult) (keywords : List String) : List String :=
  let base := strToLower (result.name ++ " " ++ result.path)
  let content :=
    match result.textMatches with
    | none => base
    | some ms => ms.foldl (fun c m => c ++ " " ++ strToLower m.fragment) base
  keywords.filter (fun k => k ≠ "" && strContains content (strToLower k))

/-- extractSnippet mirrors `extractSnippet`: the first text-match
fragment, truncated to 500 characters with an ellipsis when longer
(Go slices bytes; the model counts characters, equivalent for the
inputs considered here); empty when there are no fragments. -/
def extractSnippet (result : CodeResult) : String :=
  match result.textMatches with
  | some (m :: _) =>
      if m.fragment.length > 500 then (⟨m.fragment.toList.take 500⟩ : String) ++ "..."
      else m.fragment
  | _ => ""

/-- convertToSearchResultItem mirrors `convertToSearchResultItem`:
`none` when the hit or its repository is missing; otherwise the
normalized item. The score is the hard-coded default 1.0 (Go comment:
"Default score, can be enhanced later"); the upstream hit's score is not
consulted. `now` stands for `time.Now()`. -/
def convertToSearchResultItem (result : Option CodeResult) (keywords : List String)
    (now : Int) : Option SearchResultItem :=
  match result with
  | none => none
  | some r =>
    match r.repository with
    | none => none
    | some repo =>
        some { repoFullName := repo.fullName
               repoURL := repo.htmlURL
               filePath := r.path
               fileURL := r.htmlURL
               htmlURL := r.htmlURL
               matchedKeywords := findMatchedKeywords r keywords
               contentSnippet := extractSnippet r
               score := 1
               createdAt := now }

/-- FetchOutcome is the oracle outcome of one `client.Search.Code` page
request: a page of (possibly nil) hits, or an error together with the
response status when a response is present (Go: `resp != nil &&
resp.StatusCode == 403`). -/
inductive FetchOutcome where
  | ok (codeResults : List (Option CodeResult))
  | err (msg : String) (respStatus : Option Int)

/-- SearchRun is the instrumented outcome of one `SearchCode` call: the
result or error string, the token indices acquired from the pool, and
one `(page, tokenIndex)` entry per page request issued. -/
structure SearchRun where
  result : Except String (List SearchResultItem)
  acquiredTokens : List Nat
  pageRequests : List (Nat × Nat)

/-- searchCodePages is the pagination loop of `SearchCode`. `fuel` is
maintained as `11 - page` (the loop breaks once `page >= 10`, so fuel
never reaches 0; page size and the 10-page ceiling are upstream
constants). The inter-page 2s sleep is a no-op in the model. -/
def searchCodePages (fetch : String → Nat → FetchOutcome) (query : String)
    (keywords : List String) (tokenIdx : Nat) (now : Int) :
    Nat → Nat → List SearchResultItem → List (Nat × Nat) →
    Except String (List SearchResultItem) × List (Nat × Nat)
  | 0, _page, acc, reqs => (.ok acc, reqs)
  | fuel + 1, page, acc, reqs =>
    let reqs := reqs ++ [(page, tokenIdx)]
    match fetch query page with
    | .err msg status =>
        if status = some 403 then (.error ("rate limit exceeded: " ++ msg), reqs)
        else (.error ("search failed: " ++ msg), reqs)
    | .ok codeResults =>
        let acc := acc ++ codeResults.filterMap
          (fun r => convertToSearchResultItem r keywords now)
        if page ≥ 10 ∨ codeResults.length = 0 then (.ok acc, reqs)
        else searchCodePages fetch query keywords tokenIdx now fuel (page + 1) acc reqs

/-- searchCode mirrors `SearchService.SearchCode`: build the query,
obtain ONE client from the pool (before the page loop), then fetch pages
1, 2, ... with that same client until an empty page or the 10-page
ceiling. Pool-acquisition failures are wrapped as "failed to get
client". -/
def searchCode (p : TokenPool) (upd : Nat → RateLimitFetch) (now : Int)
    (fetch : String → Nat → FetchOutcome) (opts : SearchOptions) : SearchRun :=
  let query := buildQuery opts
  match p.getClient upd now with
  | (.ok i, _p1, _calls) =>
      let (res, reqs) := searchCodePages fetch query opts.keywords i now 10 1 [] []
      { result := res, acquiredTokens := [i], pageRequests := reqs }
  | (.exhausted r, _p1, _calls) =>
      { result := .error ("failed to get client: all tokens rate limited, next reset at "
          ++ toString r),
        acquiredTokens := [], pageRequests := [] }
  | (.noAvailable, _p1, _calls) =>
      { result := .error "failed to get client: no available tokens",
        acquiredTokens := [], pageRequests := [] }

/-- searchWithRetryLoop is the attempt loop of `SearchWithRetry`. `fuel`
is maintained as `maxRetries - i`, so running out of fuel is the loop
condition failing, at which point the last error is wrapped as
"max retries exceeded" (Go wraps a nil `lastErr` only when
`maxRetries = 0`; `getD ""` stands for that degenerate case). The sleep
log records each backoff `(i+1)*10` seconds. -/
def searchWithRetryLoop (att : Nat → Except String (List SearchResultItem)) :
    Nat → Nat → Option String → List Nat →
    Except String (List SearchResultItem) × List Nat
  | 0, _i, lastErr, sleeps => (.error ("max retries exceeded: " ++ lastErr.getD ""), sleeps)
  | fuel + 1, i, _lastErr, sleeps =>
    match att i with
    | .ok results => (.ok results, sleeps)
    | .error e =>
        if strContains e "rate limit" then
          searchWithRetryLoop att fuel (i + 1) (some e) (sleeps ++ [(i + 1) * 10])
        else (.error e, sleeps)

/-- searchWithRetry mirrors `SearchService.SearchWithRetry` with the
outcome of each `SearchCode` attempt abstracted as the oracle `att`:
retry (after a backoff sleep) only errors whose text contains
"rate limit"; return any other error immediately; wrap the last error
after `maxRetries` failed attempts. -/
def searchWithRetry (att : Nat → Except String (List SearchResultItem))
    (maxRetries : Nat) : Except String (List SearchResultItem) × List Nat :=
  searchWithRetryLoop att maxRetries 0 none []

/-- WhitelistEntry mirrors `models.Whitelist` (the fields read by the
filter): entry type ("repo" or "user") and value. -/
structure WhitelistEntry where
  type : String
  value : String
deriving Repr, DecidableEq

/-- splitRepoName mirrors `splitRepoName`: split at the first `/` into
`[owner, rest]`, or `[]` when there is no `/` (Go indexes bytes; the
model indexes characters, equivalent for the ASCII names involved). -/
def splitRepoName (fullName : String) : List String :=
  let cs := fullName.toList
  match cs.findIdx? (fun c => c = '/') with
  | some i => [⟨cs.take i⟩, ⟨cs.drop (i + 1)⟩]
  | none => []

/-- isWhitelisted is the per-result inner loop of `filterWhitelist`:
suppressed when a "repo" entry equals the full name, or a "user" entry
equals the owner segment before the first `/`. -/
def isWhitelisted (whitelist : List WhitelistEntry) (result : SearchResultItem) : Bool :=
  whitelist.any (fun entry =>
    (entry.type = "repo" && result.repoFullName = entry.value) ||
    (entry.type = "user" && result.repoFullName.length > 0 &&
      (match splitRepoName result.repoFullName with
       | p :: _ => p = entry.value
       | [] => false)))

/-- filterWhitelist mirrors `MonitorService.filterWhitelist` with the
whitelist rows passed in (the DB read and its error fallback both yield
the rows): identity on an empty whitelist, else keep the non-suppressed
results in order. -/
def filterWhitelist (results : List SearchResultItem)
    (whitelist : List WhitelistEntry) : List SearchResultItem :=
  if whitelist.isEmpty then results
  else results.filter (fun r => !(isWhitelisted whitelist r))

/-- DedupKey is the de-duplication key of a persisted search result:
`(rule_id, repo_full_name, file_path)` as queried by `saveResults`. -/
structure DedupKey where
  ruleID : Nat
  repoFullName : String
  filePath : String
deriving Repr, DecidableEq

/-- resultKey builds the de-duplication key `saveResults` queries for a
candidate. -/
def resultKey (ruleID : Nat) (result : SearchResultItem) : DedupKey :=
  ⟨ruleID, result.repoFullName, result.filePath⟩

/-- saveResults mirrors `MonitorService.saveResults` with storage
modelled as the list of stored de-duplication keys: for each candidate in
order, query existence by key (each insert is immediately visible to
later queries in the same call) and insert only when absent, counting the
inserts. `Create` failures are not modelled (inserts always succeed).
Returns the new-match count and the storage after the call. -/
def saveResults (ruleID : Nat) (results : List SearchResultItem)
    (stored : List DedupKey) : Nat × List DedupKey :=
  results.foldl
    (fun (acc : Nat × List DedupKey) result =>
      if resultKey ruleID result ∈ acc.2 then acc
      else (acc.1 + 1, acc.2 ++ [resultKey ruleID result]))
    (0, stored)

/-- ScanOutcome mirrors the `models.ScanHistory` row recorded by
`recordScanHistory` (the fields `scanRule` sets; `TokenUsed` is always
`""` and `Duration` is wall-clock, both omitted). -/
structure ScanOutcome where
  ruleID : Nat
  resultsCount : Nat
  newResults : Nat
  status : String
  errorMessage : String
deriving Repr, DecidableEq

/-- scanRule mirrors `MonitorService.scanRule` for one rule, with the
JSON parse outcomes of the rule's keyword and extension fields given as
`Except` values and each `SearchCode` attempt abstracted by `att` (which
receives the built `SearchOptions`). Returns the recorded history row,
whether a search was executed for the rule in this cycle, and the
storage after persistence. Invalid keywords record a "failed" row and
skip the rule; invalid extensions are tolerated (exclusions reset to
empty, scan continues). A search error is recorded as "rate_limited"
only when its text is exactly "rate limit exceeded", else "failed". -/
def scanRule (ruleID : Nat) (matchType : String)
    (parsedKeywords parsedExts : Except String (List String))
    (att : SearchOptions → Nat → Except String (List SearchResultItem))
    (whitelist : List WhitelistEntry) (stored : List DedupKey) :
    ScanOutcome × Bool × List DedupKey :=
  match parsedKeywords with
  | .error e => (⟨ruleID, 0, 0, "failed", e⟩, false, stored)
  | .ok keywords =>
    let excludeExts := match parsedExts with
      | .error _ => []
      | .ok exts => exts
    let searchOpts : SearchOptions :=
      { keywords := keywords, matchType := matchType, excludeExts := excludeExts,
        language := "", sort := "indexed", order := "desc" }
    match searchWithRetry (att searchOpts) 3 with
    | (.error e, _sleeps) =>
        (⟨ruleID, 0, 0, if e = "rate limit exceeded" then "rate_limited" else "failed", e⟩,
         true, stored)
    | (.ok results, _sleeps) =>
        let filteredResults := filterWhitelist results whitelist
        let (newResultsCount, stored1) := saveResults ruleID filteredResults stored
        (⟨ruleID, filteredResults.length, newResultsCount, "success", ""⟩, true, stored1)

/-- RuleInput bundles one rule's inputs to `scanRule` for a cycle. -/
structure RuleInput where
  ruleID : Nat
  matchType : String
  parsedKeywords : Except String (List String)
  parsedExts : Except String (List String)
  att : SearchOptions → Nat → Except String (List SearchResultItem)

/-- scanCycle mirrors the rule loop of `MonitorService.scan`: rules are
scanned sequentially (the 5s inter-rule sleep is a no-op in the model),
each producing one history row regardless of the previous rules'
outcomes, with storage threaded through. -/
def scanCycle (rules : List RuleInput) (whitelist : List WhitelistEntry)
    (stored : List DedupKey) : List ScanOutcome × List DedupKey :=
  rules.foldl
    (fun (acc : List ScanOutcome × List DedupKey) rule =>
      let (outcome, _ran, stored1) :=
        scanRule rule.ruleID rule.matchType rule.parsedKeywords rule.parsedExts
          rule.att whitelist acc.2
      (acc.1 ++ [outcome], stored1))
    ([], stored)

/-- TokenInfo.depleted is the spec-side predicate "remaining quota at or
below the reserve threshold (10) with a reset time strictly in the
future": the hypothesis of the exhaustion claims. -/
def TokenInfo.depleted (t : TokenInfo) (now : Int) : Bool :=
  match t.rateLimit with
  | none => false
  | some r => decide (now < r.reset) && decide (r.remaining ≤ 10)

/-- rlOf projects a pool to its list of rate-limit snapshots (the data
`getNextResetTime` and `hasRemainingCalls` depend on; the selection loop
never changes it). -/
def rlOf (p : TokenPool) : List (Option Rate) :=
  p.tokens.map (fun t => t.rateLimit)

/-- upd0 is the refresh oracle whose network calls succeed with an empty
core, leaving every snapshot unchanged. -/
def upd0 : Nat → RateLimitFetch := fun _ => .ok none

/-- tokAmple has ample quota: remaining 100 > 10, reset in the future. -/
def tokAmple : TokenInfo := ⟨some ⟨5000, 100, 4600⟩, true⟩

/-- pool2ample is a two-credential pool, both with ample quota. -/
def pool2ample : TokenPool := ⟨[tokAmple, tokAmple], 0⟩

/-- pool1ample is a one-credential pool with ample quota. -/
def pool1ample : TokenPool := ⟨[tokAmple], 0⟩

/-- tokLow is depleted: remaining 5 ≤ 10, reset 3600s in the future at
`now = 1000` (beyond the 5-minute horizon). -/
def tokLow : TokenInfo := ⟨some ⟨5000, 5, 4600⟩, true⟩

/-- pool1low is a one-credential pool whose credential is depleted with a
reset beyond the 5-minute horizon at `now = 1000`. -/
def pool1low : TokenPool := ⟨[tokLow], 0⟩

/-- tokSoon is depleted with a reset only 60s in the future at
`now = 1000`. -/
def tokSoon : TokenInfo := ⟨some ⟨5000, 5, 1060⟩, true⟩

/-- poolSoon is a two-credential pool, all depleted, earliest reset 60s
away at `now = 1000`. -/
def poolSoon : TokenPool := ⟨[tokSoon, tokLow], 0⟩

/-- tokPassed has zero remaining but a reset time already in the past at
`now = 1000`. -/
def tokPassed : TokenInfo := ⟨some ⟨5000, 0, 500⟩, true⟩

/-- poolPassed is a one-credential pool whose credential's reset has
passed. -/
def poolPassed : TokenPool := ⟨[tokPassed], 0⟩

/-- hit1 is a raw search hit with a resolvable repository and no score. -/
def hit1 : CodeResult :=
  ⟨"config.yaml", "config/config.yaml", "https://example/u",
   some ⟨"octo/secrets", "https://example/r"⟩, none, none⟩

/-- itemHit1 is the normalized form of `hit1`. -/
def itemHit1 : SearchResultItem :=
  ⟨"octo/secrets", "https://example/r", "config/config.yaml",
   "https://example/u", "https://example/u", [], "", 1, 0⟩

/-- hitScored is `hit1` with an upstream score of 3 attached. -/
def hitScored : CodeResult := { hit1 with score := some 3 }

/-- fetchTwoPages serves one hit on page 1 and an empty page 2, so the
pagination loop issues exactly two page requests. -/
def fetchTwoPages : String → Nat → FetchOutcome :=
  fun _query page => if page = 1 then .ok [some hit1] else .ok []

/-- optsC2 is a simple precise-mode search. -/
def optsC2 : SearchOptions := ⟨["password"], "precise", [], "", "indexed", "desc"⟩

/-- attOK is a search-attempt oracle that always succeeds with no
results. -/
def attOK : SearchOptions → Nat → Except String (List SearchResultItem) :=
  fun _ _ => .ok []

/-- attRL is a search-attempt oracle that always fails with the
rate-limit-classified error `SearchCode` produces on a 403 response. -/
def attRL : SearchOptions → Nat → Except String (List SearchResultItem) :=
  fun _ _ => .error "rate limit exceeded: 403"

/-- item2 is a normalized match candidate. -/
def item2 : SearchResultItem :=
  ⟨"octo/other", "https://example/r2", "a/b.txt",
   "https://example/f2", "https://example/f2", ["key"], "", 1, 0⟩

/-- attOne is a search-attempt oracle that always succeeds with one
candidate. -/
def attOne : SearchOptions → Nat → Except String (List SearchResultItem) :=
  fun _ _ => .ok [item2]

/-- ruleRL is a rule with valid fields whose every search attempt fails
rate-limit-classified. -/
def ruleRL : RuleInput := ⟨1, "precise", .ok ["password"], .ok [], attRL⟩

/-- ruleOK is a rule with valid fields whose search succeeds with one
candidate. -/
def ruleOK : RuleInput := ⟨2, "fuzzy", .ok ["key"], .ok [], attOne⟩

/-- itemW1 and itemW2 are persistence-test candidates with distinct
de-duplication keys. -/
def itemW1 : SearchResultItem :=
  ⟨"octo/a", "ra", "p1.txt", "f1", "f1", [], "", 1, 0⟩

/-- itemW2 differs from itemW1 in repository and path. -/
def itemW2 : SearchResultItem :=
  ⟨"octo/b", "rb", "p2.txt", "f2", "f2", [], "", 1, 0⟩

/-- attTwoRL fails rate-limit-classified on attempts 0 and 1 and
succeeds on attempt 2. -/
def attTwoRL : Nat → Except String (List SearchResultItem) :=
  fun i => if i < 2 then .error "rate limit exceeded: 403" else .ok [item2]

/-- attBad fails with a non-rate-limit error on every attempt. -/
def attBad : Nat → Except String (List SearchResultItem) :=
  fun _ => .error "search failed: 500"

/-- attAllRL fails rate-limit-classified on every attempt. -/
def attAllRL : Nat → Except String (List SearchResultItem) :=
  fun _ => .error "rate limit exceeded: 403"

/-! Helper lemmas. -/

theorem list_set_self {α : Type} : ∀ (l : List α) (i : Nat) (a : α),
    l[i]? = some a → l.set i a = l
  | [], _, _, h => by simp at h
  | _ :: _, 0, _, h => by
      simp at h
      simp [List.set, h]
  | _ :: xs, i + 1, a, h => by
      simp at h
      simpa [List.set] using list_set_self xs i a h

theorem getClient_success_current (p : TokenPool) (t : TokenInfo)
    (upd : Nat → RateLimitFetch) (now : Int)
    (ht : p.tokens[p.currentIndex]? = some t)
    (hav : t.isAvailable = true)
    (hupd : upd p.currentIndex = .ok none)
    (hrem : t.hasRemainingCalls now 10 = true) :
    p.getClient upd now = (.ok p.currentIndex, p, 1) := by
  obtain ⟨n, hn⟩ : ∃ n, p.tokens.length = n + 1 := by
    rcases List.getElem?_eq_some.mp ht with ⟨hlt, _⟩
    exact ⟨p.tokens.length - 1, by omega⟩
  unfold TokenPool.getClient
  rw [hn]
  rw [getClientLoop]
  simp [ht, hav, hupd, TokenInfo.updateRateLimit, hrem, TokenPool.setToken,
        list_set_self _ _ _ ht]

/-! Claims. -/

/-- C1 counterexample: a two-credential pool with ample quota on both.
The first acquisition returns credential 0 but leaves the selection
pointer at 0 (not advanced past it), and the second consecutive
acquisition returns credential 0 again rather than the distinct
credential 1 the claim's cyclic round-robin order requires. -/
theorem getClient_pointer_not_advanced_cx :
    (pool2ample.getClient upd0 1000).1 = .ok 0
    ∧ (pool2ample.getClient upd0 1000).2.1.currentIndex = 0
    ∧ ((pool2ample.getClient upd0 1000).2.1.getClient upd0 1000).1 = .ok 0
    ∧ ((pool2ample.getClient upd0 1000).2.1.getClient upd0 1000).1 ≠ .ok 1 := by
  decide

/-- C1 (amended): when the credential at the selection pointer is
available, its refresh leaves the snapshot unchanged and its remaining
quota passes the reserve check, `GetClient` returns that credential and
leaves the pool (pointer included) unchanged; consecutive acquisitions
therefore return the same credential, not distinct ones — the pointer
advances only past credentials that are skipped. -/
theorem getClient_returns_current_without_advance (p : TokenPool) (t : TokenInfo)
    (upd : Nat → RateLimitFetch) (now : Int)
    (ht : p.tokens[p.currentIndex]? = some t)
    (hav : t.isAvailable = true)
    (hupd : upd p.currentIndex = .ok none)
    (hrem : t.hasRemainingCalls now 10 = true) :
    p.getClient upd now = (.ok p.currentIndex, p, 1)
    ∧ ((p.getClient upd now).2.1.getClient upd now).1 = .ok p.currentIndex := by
  have h := getClient_success_current p t upd now ht hav hupd hrem
  exact ⟨h, by simp [h]⟩

/-- C1 witness: the amended theorem applied to the two-credential pool. -/
theorem getClient_returns_current_without_advance_witness :
    pool2ample.getClient upd0 1000 = (.ok 0, pool2ample, 1)
    ∧ ((pool2ample.getClient upd0 1000).2.1.getClient upd0 1000).1 = .ok 0 :=
  getClient_returns_current_without_advance pool2ample tokAmple upd0 1000
    (by decide) (by decide) rfl (by decide)

/-- C4 counterexample: a credential whose reset time has passed is
returned by `GetClient`, but only after one rate-limit refresh network
call — not zero as the claim ("no call to the quota endpoint occurs
before returning it") requires. -/
theorem getClient_refresh_call_on_reset_passed_cx :
    (poolPassed.getClient upd0 1000).1 = .ok 0
    ∧ ¬ ((poolPassed.getClient upd0 1000).2.2 = 0) := by decide

/-- C4 (amended): a credential whose reset time has passed is treated as
replenished by the quota check (`HasRemainingCalls` returns true
regardless of the recorded remaining, without needing refreshed values)
and `GetClient` returns it; however `GetClient` does issue exactly one
rate-limit refresh network call before that check. -/
theorem getClient_reset_passed_usable (p : TokenPool) (t : TokenInfo) (r : Rate)
    (upd : Nat → RateLimitFetch) (now : Int)
    (ht : p.tokens[p.currentIndex]? = some t)
    (hav : t.isAvailable = true)
    (hupd : upd p.currentIndex = .ok none)
    (hr : t.rateLimit = some r)
    (hreset : r.reset < now) :
    t.hasRemainingCalls now 10 = true
    ∧ p.getClient upd now = (.ok p.currentIndex, p, 1) := by
  have hrem : t.hasRemainingCalls now 10 = true := by
    simp [TokenInfo.hasRemainingCalls, hr, hreset]
  exact ⟨hrem, getClient_success_current p t upd now ht hav hupd hrem⟩

/-- C4 witness: the amended theorem applied to the passed-reset pool
(remaining 0, reset 500 < now 1000). -/
theorem getClient_reset_passed_usable_witness :
    tokPassed.hasRemainingCalls 1000 10 = true
    ∧ poolPassed.getClient upd0 1000 = (.ok 0, poolPassed, 1) :=
  getClient_reset_passed_usable poolPassed tokPassed ⟨5000, 0, 500⟩ upd0 1000
    (by decide) (by decide) rfl (by decide) (by decide)

/-- C7: `buildQuery` on keywords ["password","api_key"] with excluded
extension "md" yields the quoted query in precise (exact) mode and the
unquoted query in fuzzy mode, and empty keyword strings are skipped in
every mode. -/
theorem buildQuery_spec :
    buildQuery ⟨["password", "api_key"], "precise", ["md"], "", "", ""⟩ =
      "\"password\" \"api_key\" -extension:md"
    ∧ buildQuery ⟨["password", "api_key"], "fuzzy", ["md"], "", "", ""⟩ =
      "password api_key -extension:md"
    ∧ ∀ (ks1 ks2 : List String) (mt : String) (exts : List String)
        (lang srt ord : String),
        buildQuery ⟨ks1 ++ "" :: ks2, mt, exts, lang, srt, ord⟩ =
        buildQuery ⟨ks1 ++ ks2, mt, exts, lang, srt, ord⟩ := by
  refine ⟨by decide, by decide, ?_⟩
  intro ks1 ks2 mt exts lang srt ord
  simp [buildQuery, List.filter_append]

/-- C8 (code bug): a rule whose search fails rate-limit-classified on
every attempt is recorded with status "failed", not "rate_limited": the
classification compares the error text to "rate limit exceeded" by exact
equality, but `SearchWithRetry` only ever returns wrapped texts such as
"max retries exceeded: rate limit exceeded: 403" (the `rate_limited`
status documented in the `ScanHistory` model is unreachable). The
remaining rule of the cycle still runs and records its own outcome. -/
theorem scanRule_rate_limit_recorded_as_failed :
    (scanCycle [ruleRL, ruleOK] [] []).1 =
      [⟨1, 0, 0, "failed", "max retries exceeded: rate limit exceeded: 403"⟩,
       ⟨2, 1, 1, "success", ""⟩] := by decide

/-- C9 counterexample: a rule with valid keywords and an invalid
excluded-extension encoding is not skipped — the search for it still
executes in the cycle and it records a "success" outcome. -/
theorem scanRule_invalid_exts_still_searches_cx :
    (scanRule 1 "precise" (.ok ["k"]) (.error "unexpected end of JSON input")
        attOK [] []).2.1 = true
    ∧ (scanRule 1 "precise" (.ok ["k"]) (.error "unexpected end of JSON input")
        attOK [] []).1.status = "success" := by decide

/-- C9 (amended): only an invalid keyword encoding skips a rule for the
cycle (no search executed, "failed" row recorded); an invalid
excluded-extension encoding is tolerated — the exclusion list is reset to
empty and the rule's scan proceeds exactly as with no exclusions. -/
theorem scanRule_invalid_exts_tolerated (ruleID : Nat) (matchType e : String)
    (kws : List String) (pe : Except String (List String))
    (att : SearchOptions → Nat → Except String (List SearchResultItem))
    (wl : List WhitelistEntry) (stored : List DedupKey) :
    scanRule ruleID matchType (.ok kws) (.error e) att wl stored =
      scanRule ruleID matchType (.ok kws) (.ok []) att wl stored
    ∧ (scanRule ruleID matchType (.ok kws) (.error e) att wl stored).2.1 = true
    ∧ (scanRule ruleID matchType (.error e) pe att wl stored).2.1 = false := by
  refine ⟨rfl, ?_, rfl⟩
  simp only [scanRule]
  rcases h : searchWithRetry (att _) 3 with ⟨res, sleeps⟩
  cases res <;> simp

/-- C10 counterexample: a hit carrying upstream score 3 is normalized
with score 1 (the fixed default), not the carried value. -/
theorem convert_score_ignores_hit_cx :
    (convertToSearchResultItem (some hitScored) ["password"] 0).map
      (fun i => i.score) = some 1
    ∧ hitScored.score = some 3 ∧ ((3 : Rat) ≠ 1) := by decide

/-- C10 (amended): `convertToSearchResultItem` always assigns the fixed
default score 1.0 to the normalized candidate, regardless of any score
carried by the upstream hit. -/
theorem convert_score_constant_default (r : CodeResult) (keywords : List String)
    (now : Int) (item : SearchResultItem)
    (h : convertToSearchResultItem (some r) keywords now = some item) :
    item.score = 1 := by
  cases hr : r.repository with
  | none => simp [convertToSearchResultItem, hr] at h
  | some repo =>
      simp [convertToSearchResultItem, hr] at h
      rw [← h]

/-- C10 witness: the amended theorem applied to `hit1`. -/
theorem convert_score_constant_default_witness : itemHit1.score = 1 :=
  convert_score_constant_default hit1 ["password"] 0 itemHit1 (by decide)

theorem searchCodePages_pageTokens (fetch : String → Nat → FetchOutcome)
    (query : String) (kws : List String) (i : Nat) (now : Int) (fuel : Nat) :
    ∀ (page : Nat) (acc : List SearchResultItem) (reqs : List (Nat × Nat)),
      (∀ pr ∈ reqs, pr.2 = i) →
      ∀ pr ∈ (searchCodePages fetch query kws i now fuel page acc reqs).2, pr.2 = i := by
  induction fuel with
  | zero =>
      intro page acc reqs hreqs
      simpa [searchCodePages] using hreqs
  | succ fuel ih =>
      intro page acc reqs hreqs
      have hreqs1 : ∀ pr ∈ reqs ++ [(page, i)], pr.2 = i := by
        intro pr hpr
        rcases List.mem_append.mp hpr with h | h
        · exact hreqs pr h
        · simp at h
          rw [h]
      rw [searchCodePages]
      cases hf : fetch query page with
      | err msg status =>
          by_cases h403 : status = some 403 <;> simpa [h403] using hreqs1
      | ok codeResults =>
          dsimp only
          by_cases hstop : page ≥ 10 ∨ codeResults.length = 0
          · rw [if_pos hstop]
            exact hreqs1
          · rw [if_neg hstop]
            exact ih (page + 1) _ _ hreqs1

/-- C2 counterexample: a search spanning two page requests performs only
one credential acquisition from the pool — page 2 does not obtain a
fresh credential. -/
theorem searchCode_single_acquisition_cx :
    (searchCode pool1ample upd0 1000 fetchTwoPages optsC2).pageRequests.length = 2
    ∧ (searchCode pool1ample upd0 1000 fetchTwoPages optsC2).acquiredTokens.length = 1 := by
  decide

/-- C2 (amended): during one paginated search, the credential is obtained
from the pool exactly once, before the pagination loop; every page
request of that search reuses the same credential. -/
theorem searchCode_single_acquisition (p : TokenPool) (upd : Nat → RateLimitFetch)
    (now : Int) (fetch : String → Nat → FetchOutcome) (opts : SearchOptions)
    (i : Nat) (p1 : TokenPool) (calls : Nat)
    (hacq : p.getClient upd now = (.ok i, p1, calls)) :
    (searchCode p upd now fetch opts).acquiredTokens = [i]
    ∧ ∀ pr ∈ (searchCode p upd now fetch opts).pageRequests, pr.2 = i := by
  unfold searchCode
  rw [hacq]
  exact ⟨rfl, searchCodePages_pageTokens fetch (buildQuery opts) opts.keywords i now
    10 1 [] [] (by simp)⟩

/-- C2 witness: the amended theorem applied to a concrete two-page
search. -/
theorem searchCode_single_acquisition_witness :
    (searchCode pool1ample upd0 1000 fetchTwoPages optsC2).acquiredTokens = [0]
    ∧ ∀ pr ∈ (searchCode pool1ample upd0 1000 fetchTwoPages optsC2).pageRequests,
        pr.2 = 0 :=
  searchCode_single_acquisition pool1ample upd0 1000 fetchTwoPages optsC2
    0 pool1ample 1 (by decide)

theorem saveResults_split (ruleID : Nat) :
    ∀ (results : List SearchResultItem) (n : Nat) (stored : List DedupKey),
      (results.map (resultKey ruleID)).Nodup →
      List.foldl
        (fun (acc : Nat × List DedupKey) result =>
          if resultKey ruleID result ∈ acc.2 then acc
          else (acc.1 + 1, acc.2 ++ [resultKey ruleID result])) (n, stored) results =
      (n + (results.filter (fun r => resultKey ruleID r ∉ stored)).length,
       stored ++ (results.filter (fun r => resultKey ruleID r ∉ stored)).map
         (resultKey ruleID)) := by
  intro results
  induction results with
  | nil => intro n stored _; simp
  | cons r rs ih =>
      intro n stored hnd
      rw [List.map_cons, List.nodup_cons] at hnd
      obtain ⟨h1, h2⟩ := hnd
      rw [List.foldl_cons]
      dsimp only
      by_cases hmem : resultKey ruleID r ∈ stored
      · rw [if_pos hmem, ih n stored h2]
        rw [List.filter_cons_of_neg (by simpa using hmem)]
      · rw [if_neg hmem, ih (n + 1) (stored ++ [resultKey ruleID r]) h2]
        have hcongr :
            rs.filter (fun x => resultKey ruleID x ∉ stored ++ [resultKey ruleID r]) =
            rs.filter (fun x => resultKey ruleID x ∉ stored) := by
          apply List.filter_congr
          intro x hx
          have hne : resultKey ruleID x ≠ resultKey ruleID r := by
            intro hcontra
            exact h1 (List.mem_map.mpr ⟨x, hx, hcontra⟩)
          simp [List.mem_append, hne]
        rw [hcongr, List.filter_cons_of_pos (by simpa using hmem)]
        simp [List.append_assoc]
        omega

theorem saveResults_all_present (ruleID : Nat) :
    ∀ (results : List SearchResultItem) (stored : List DedupKey),
      (∀ r ∈ results, resultKey ruleID r ∈ stored) →
      saveResults ruleID results stored = (0, stored) := by
  intro results
  induction results with
  | nil => intro stored _; rfl
  | cons r rs ih =>
      intro stored h
      unfold saveResults
      rw [List.foldl_cons]
      dsimp only
      rw [if_pos (h r (List.mem_cons_self r rs))]
      exact ih stored (fun x hx => h x (List.mem_cons_of_mem r hx))

/-- C5: for a candidate set with pairwise-distinct de-duplication keys,
the first `saveResults` call inserts exactly the candidates whose key
(rule id, repository full name, file path) is absent from storage and
returns that count; a second call with the identical candidate set
inserts nothing and returns zero. -/
theorem saveResults_idempotent (ruleID : Nat) (results : List SearchResultItem)
    (stored : List DedupKey)
    (hnodup : (results.map (resultKey ruleID)).Nodup) :
    (saveResults ruleID results stored).1 =
      (results.filter (fun r => resultKey ruleID r ∉ stored)).length
    ∧ (saveResults ruleID results stored).2 =
      stored ++ (results.filter (fun r => resultKey ruleID r ∉ stored)).map
        (resultKey ruleID)
    ∧ saveResults ruleID results (saveResults ruleID results stored).2 =
      (0, (saveResults ruleID results stored).2) := by
  have hsplit := saveResults_split ruleID results 0 stored hnodup
  have h1 : (saveResults ruleID results stored).1 =
      (results.filter (fun r => resultKey ruleID r ∉ stored)).length := by
    unfold saveResults
    rw [hsplit]
    simp
  have h2 : (saveResults ruleID results stored).2 =
      stored ++ (results.filter (fun r => resultKey ruleID r ∉ stored)).map
        (resultKey ruleID) := by
    unfold saveResults
    rw [hsplit]
  refine ⟨h1, h2, ?_⟩
  have hall : ∀ r ∈ results,
      resultKey ruleID r ∈ (saveResults ruleID results stored).2 := by
    intro r hr
    rw [h2, List.mem_append]
    by_cases hmem : resultKey ruleID r ∈ stored
    · exact Or.inl hmem
    · refine Or.inr (List.mem_map.mpr ⟨r, ?_, rfl⟩)
      exact List.mem_filter.mpr ⟨hr, by simpa using hmem⟩
  exact saveResults_all_present ruleID results _ hall

/-- C5 witness: two distinct-key candidates against a storage already
holding the first one's key; the second call inserts nothing. -/
theorem saveResults_idempotent_witness :
    (([itemW1, itemW2].map (resultKey 7)).Nodup)
    ∧ saveResults 7 [itemW1, itemW2]
        (saveResults 7 [itemW1, itemW2] [resultKey 7 itemW1]).2 =
      (0, (saveResults 7 [itemW1, itemW2] [resultKey 7 itemW1]).2) :=
  ⟨by decide,
   (saveResults_idempotent 7 [itemW1, itemW2] [resultKey 7 itemW1] (by decide)).2.2⟩

theorem searchWithRetryLoop_rl (att : Nat → Except String (List SearchResultItem))
    (i : Nat) (lastErr : Option String) (sleeps : List Nat) (fuel : Nat) (e : String)
    (h : att i = .error e) (hrl : strContains e "rate limit" = true) :
    searchWithRetryLoop att (fuel + 1) i lastErr sleeps =
      searchWithRetryLoop att fuel (i + 1) (some e) (sleeps ++ [(i + 1) * 10]) := by
  simp [searchWithRetryLoop, h, hrl]

theorem searchWithRetryLoop_ok (att : Nat → Except String (List SearchResultItem))
    (i : Nat) (lastErr : Option String) (sleeps : List Nat) (fuel : Nat)
    (rs : List SearchResultItem) (h : att i = .ok rs) :
    searchWithRetryLoop att (fuel + 1) i lastErr sleeps = (.ok rs, sleeps) := by
  simp [searchWithRetryLoop, h]

theorem searchWithRetryLoop_other (att : Nat → Except String (List SearchResultItem))
    (i : Nat) (lastErr : Option String) (sleeps : List Nat) (fuel : Nat) (e : String)
    (h : att i = .error e) (hrl : strContains e "rate limit" = false) :
    searchWithRetryLoop att (fuel + 1) i lastErr sleeps = (.error e, sleeps) := by
  simp [searchWithRetryLoop, h, hrl]

/-- C6: with maxAttempts = 3, (a) two rate-limit-classified failures
followed by a success return the successful result after sleeping 10s
then 20s; (b) a non-rate-limit failure is returned immediately with no
retry and no sleep; (c) three rate-limit-classified failures exhaust the
attempts, sleeping 10s, 20s, 30s, and return the last observed error
wrapped as "max retries exceeded". -/
theorem searchWithRetry_policy (attA attB attC : Nat → Except String (List SearchResultItem))
    (rs : List SearchResultItem) (a0 a1 b0 c0 c1 c2 : String)
    (hA0 : attA 0 = .error a0) (hA0rl : strContains a0 "rate limit" = true)
    (hA1 : attA 1 = .error a1) (hA1rl : strContains a1 "rate limit" = true)
    (hA2 : attA 2 = .ok rs)
    (hB0 : attB 0 = .error b0) (hB0rl : strContains b0 "rate limit" = false)
    (hC0 : attC 0 = .error c0) (hC0rl : strContains c0 "rate limit" = true)
    (hC1 : attC 1 = .error c1) (hC1rl : strContains c1 "rate limit" = true)
    (hC2 : attC 2 = .error c2) (hC2rl : strContains c2 "rate limit" = true) :
    searchWithRetry attA 3 = (.ok rs, [10, 20])
    ∧ searchWithRetry attB 3 = (.error b0, [])
    ∧ searchWithRetry attC 3 =
        (.error ("max retries exceeded: " ++ c2), [10, 20, 30]) := by
  refine ⟨?_, ?_, ?_⟩
  · calc searchWithRetry attA 3
        = searchWithRetryLoop attA 3 0 none [] := rfl
      _ = searchWithRetryLoop attA 2 1 (some a0) [10] :=
          searchWithRetryLoop_rl attA 0 none [] 2 a0 hA0 hA0rl
      _ = searchWithRetryLoop attA 1 2 (some a1) [10, 20] :=
          searchWithRetryLoop_rl attA 1 (some a0) [10] 1 a1 hA1 hA1rl
      _ = (.ok rs, [10, 20]) :=
          searchWithRetryLoop_ok attA 2 (some a1) [10, 20] 0 rs hA2
  · exact searchWithRetryLoop_other attB 0 none [] 2 b0 hB0 hB0rl
  · calc searchWithRetry attC 3
        = searchWithRetryLoop attC 3 0 none [] := rfl
      _ = searchWithRetryLoop attC 2 1 (some c0) [10] :=
          searchWithRetryLoop_rl attC 0 none [] 2 c0 hC0 hC0rl
      _ = searchWithRetryLoop attC 1 2 (some c1) [10, 20] :=
          searchWithRetryLoop_rl attC 1 (some c0) [10] 1 c1 hC1 hC1rl
      _ = searchWithRetryLoop attC 0 3 (some c2) [10, 20, 30] :=
          searchWithRetryLoop_rl attC 2 (some c1) [10, 20] 0 c2 hC2 hC2rl
      _ = (.error ("max retries exceeded: " ++ c2), [10, 20, 30]) := rfl

/-- C6 witness: the three scenarios at concrete attempt oracles. -/
theorem searchWithRetry_policy_witness :
    searchWithRetry attTwoRL 3 = (.ok [item2], [10, 20])
    ∧ searchWithRetry attBad 3 = (.error "search failed: 500", [])
    ∧ searchWithRetry attAllRL 3 =
        (.error ("max retries exceeded: " ++ "rate limit exceeded: 403"),
         [10, 20, 30]) :=
  searchWithRetry_policy attTwoRL attBad attAllRL [item2]
    "rate limit exceeded: 403" "rate limit exceeded: 403" "search failed: 500"
    "rate limit exceeded: 403" "rate limit exceeded: 403" "rate limit exceeded: 403"
    rfl (by decide) rfl (by decide) rfl rfl (by decide) rfl (by decide) rfl (by decide)
    rfl (by decide)


theorem depleted_some (t : TokenInfo) (now : Int) (h : t.depleted now = true) :
    ∃ r, t.rateLimit = some r ∧ now < r.reset ∧ r.remaining ≤ 10 := by
  unfold TokenInfo.depleted at h
  cases hrl : t.rateLimit with
  | none => rw [hrl] at h; simp at h
  | some r =>
      rw [hrl] at h
      simp at h
      exact ⟨r, rfl, h.1, h.2⟩

theorem hasRemaining_false_of_depleted (t : TokenInfo) (now : Int)
    (h : t.depleted now = true) : t.hasRemainingCalls now 10 = false := by
  obtain ⟨r, hrl, hlt, hle⟩ := depleted_some t now h
  unfold TokenInfo.hasRemainingCalls
  rw [hrl]
  dsimp only
  rw [if_neg (by omega : ¬ (r.reset < now))]
  simpa using (by omega : ¬ (r.remaining > 10))

theorem tokens_length_eq_of_rlOf {p q : TokenPool} (h : rlOf p = rlOf q) :
    p.tokens.length = q.tokens.length := by
  have h2 := congrArg List.length h
  simpa [rlOf] using h2

theorem getNextResetTime_eq_fold (p : TokenPool) :
    p.getNextResetTime = (rlOf p).foldl minResetStep 0 := by
  unfold TokenPool.getNextResetTime rlOf
  rw [List.foldl_map]

theorem getNextResetTime_congr {p q : TokenPool} (h : rlOf p = rlOf q) :
    p.getNextResetTime = q.getNextResetTime := by
  rw [getNextResetTime_eq_fold, getNextResetTime_eq_fold, h]

theorem rlOf_markTokenUnavailable (p : TokenPool) (i : Nat) :
    rlOf (p.markTokenUnavailable i) = rlOf p := by
  unfold TokenPool.markTokenUnavailable
  cases h : p.tokens[i]? with
  | none => rfl
  | some t =>
      unfold rlOf
      dsimp only
      rw [List.map_set]
      exact list_set_self _ _ _ (by rw [List.getElem?_map, h]; rfl)

theorem rlOf_nextToken (p : TokenPool) : rlOf p.nextToken = rlOf p := rfl

theorem markTokenUnavailable_currentIndex (p : TokenPool) (i : Nat) :
    (p.markTokenUnavailable i).currentIndex = p.currentIndex := by
  unfold TokenPool.markTokenUnavailable
  cases h : p.tokens[i]? <;> rfl

theorem markTokenUnavailable_tokens_length (p : TokenPool) (i : Nat) :
    (p.markTokenUnavailable i).tokens.length = p.tokens.length := by
  unfold TokenPool.markTokenUnavailable
  cases h : p.tokens[i]? <;> simp

theorem foldl_minReset_gt (now : Int) :
    ∀ (l : List (Option Rate)) (acc : Int),
      (∀ or ∈ l, ∀ r, or = some r → now < r.reset) → now < acc →
      now < l.foldl minResetStep acc := by
  intro l
  induction l with
  | nil => intro acc _ hacc; simpa using hacc
  | cons hd tl ih =>
      intro acc hl hacc
      rw [List.foldl_cons]
      apply ih _ (fun x hx => hl x (List.mem_cons_of_mem _ hx))
      cases hd with
      | none => exact hacc
      | some r =>
          have hr := hl (some r) (List.mem_cons_self _ _) r rfl
          unfold minResetStep
          dsimp only
          by_cases hc : acc = 0 ∨ r.reset < acc
          · rw [if_pos hc]; exact hr
          · rw [if_neg hc]; exact hacc

theorem getNextResetTime_gt (p : TokenPool) (now : Int)
    (hne : p.tokens ≠ [])
    (hall : ∀ t ∈ p.tokens, t.depleted now = true) :
    now < p.getNextResetTime := by
  rw [getNextResetTime_eq_fold]
  unfold rlOf
  cases htk : p.tokens with
  | nil => exact absurd htk hne
  | cons t0 ts =>
      have hall2 : ∀ t ∈ t0 :: ts, t.depleted now = true := htk ▸ hall
      obtain ⟨r0, hr0, hlt0, _⟩ :=
        depleted_some t0 now (hall2 t0 (List.mem_cons_self _ _))
      rw [List.map_cons, List.foldl_cons, hr0]
      have hstep : minResetStep 0 (some r0) = r0.reset := by
        unfold minResetStep
        dsimp only
        rw [if_pos (Or.inl rfl)]
      rw [hstep]
      apply foldl_minReset_gt
      · intro or hor r hr
        obtain ⟨t, ht, hteq⟩ := List.mem_map.mp hor
        obtain ⟨r1, hrl1, hlt1, _⟩ :=
          depleted_some t now (hall2 t (List.mem_cons_of_mem _ ht))
        rw [hr] at hteq
        rw [hteq] at hrl1
        cases hrl1
        exact hlt1
      · exact hlt0

theorem getClientLoop_all_depleted
    (p₀ : TokenPool) (now : Int) (upd : Nat → RateLimitFetch)
    (hupd : ∀ i, upd i = .ok none)
    (N : Nat) (hN : p₀.tokens.length = N) (start : Nat) (hstart : start < N)
    (hall : ∀ t ∈ p₀.tokens, t.depleted now = true)
    (hm : p₀.getNextResetTime ≠ 0) :
    ∀ (fuel : Nat) (p : TokenPool) (attempts calls : Nat),
      fuel + attempts = N → 0 < fuel →
      rlOf p = rlOf p₀ →
      p.currentIndex = (start + attempts) % N →
      (getClientLoop upd now start N fuel p attempts calls).1 =
        (if p₀.getNextResetTime - now < 300 then
          GetClientResult.exhausted p₀.getNextResetTime
        else GetClientResult.noAvailable) := by
  intro fuel
  induction fuel with
  | zero => intro p attempts calls _ hpos _ _; exact absurd hpos (lt_irrefl 0)
  | succ fuel ih =>
      intro p attempts calls hsum _ hrl hidx
      have hNpos : 0 < N := by omega
      have hlen : p.tokens.length = N := by
        have h2 := tokens_length_eq_of_rlOf hrl
        omega
      have hidxlt : p.currentIndex < p.tokens.length := by
        rw [hlen, hidx]
        exact Nat.mod_lt _ hNpos
      obtain ⟨t, ht⟩ : ∃ t, p.tokens[p.currentIndex]? = some t :=
        ⟨p.tokens[p.currentIndex], List.getElem?_eq_some.mpr ⟨hidxlt, rfl⟩⟩
      have htmem : t ∈ p.tokens := by
        obtain ⟨hlt, heq⟩ := List.getElem?_eq_some.mp ht
        exact heq ▸ List.getElem_mem hlt
      have htdep : t.depleted now = true := by
        have h1 : t.rateLimit ∈ rlOf p := by
          unfold rlOf
          exact List.mem_map.mpr ⟨t, htmem, rfl⟩
        rw [hrl] at h1
        unfold rlOf at h1
        obtain ⟨t0, ht0, heq⟩ := List.mem_map.mp h1
        have h2 := hall t0 ht0
        unfold TokenInfo.depleted at h2 ⊢
        rw [← heq]
        exact h2
      have hcommon : ∀ (q : TokenPool) (calls2 : Nat),
          rlOf q = rlOf p₀ →
          q.currentIndex = (start + (attempts + 1)) % N →
          ((if q.currentIndex = start ∧ attempts + 1 = N then
              if q.getNextResetTime ≠ 0 ∧ q.getNextResetTime - now < 300 then
                (GetClientResult.exhausted q.getNextResetTime, q, calls2)
              else getClientLoop upd now start N fuel q (attempts + 1) calls2
            else getClientLoop upd now start N fuel q (attempts + 1) calls2)).1 =
          (if p₀.getNextResetTime - now < 300 then
            GetClientResult.exhausted p₀.getNextResetTime
          else GetClientResult.noAvailable) := by
        intro q calls2 hq hqidx
        have hqm : q.getNextResetTime = p₀.getNextResetTime := getNextResetTime_congr hq
        by_cases hlast : attempts + 1 = N
        · have hqstart : q.currentIndex = start := by
            rw [hqidx, hlast, Nat.add_mod_right]
            exact Nat.mod_eq_of_lt hstart
          rw [if_pos ⟨hqstart, hlast⟩, hqm]
          by_cases hhor : p₀.getNextResetTime - now < 300
          · rw [if_pos ⟨hm, hhor⟩, if_pos hhor]
          · rw [if_neg (fun hc => hhor hc.2)]
            have hfuel0 : fuel = 0 := by omega
            rw [hfuel0, getClientLoop, if_neg hhor]
        · rw [if_neg (fun hc => hlast hc.2)]
          exact ih q (attempts + 1) calls2 (by omega) (by omega) hq hqidx
      rw [getClientLoop, ht]
      dsimp only
      by_cases hav : t.isAvailable = true
      · rw [if_pos hav, hupd p.currentIndex]
        have hupdt : t.updateRateLimit (.ok none) = some t := rfl
        rw [hupdt]
        dsimp only
        have hp1 : p.setToken p.currentIndex t = p := by
          unfold TokenPool.setToken
          rw [list_set_self _ _ _ ht]
        rw [hp1]
        rw [if_neg (by simp [hasRemaining_false_of_depleted t now htdep])]
        apply hcommon
        · rw [rlOf_nextToken, rlOf_markTokenUnavailable]
          exact hrl
        · unfold TokenPool.nextToken
          rw [markTokenUnavailable_currentIndex, markTokenUnavailable_tokens_length,
            hlen, hidx, Nat.mod_add_mod, Nat.add_assoc]
      · rw [if_neg hav]
        apply hcommon
        · exact hrl
        · unfold TokenPool.nextToken
          rw [hlen, hidx, Nat.mod_add_mod, Nat.add_assoc]

/-- C3 counterexample: one depleted credential (remaining 5 ≤ 10) whose
reset is 3600s in the future (beyond the 5-minute horizon): `GetClient`
fails with the generic no-available error, not the typed exhausted error
carrying the earliest reset time (4600) that the claim requires. -/
theorem getClient_beyond_horizon_generic_cx :
    (pool1low.getClient upd0 1000).1 = .noAvailable
    ∧ (pool1low.getClient upd0 1000).1 ≠ .exhausted 4600 := by decide

/-- C3 (amended): when every credential has remaining quota at or below
the reserve threshold (10) with a reset time strictly in the future, and
refreshes leave snapshots unchanged, `GetClient` fails — with the typed
exhausted error carrying the minimum reset time exactly when that
minimum is within the 5-minute horizon of now, and with the generic
no-available error otherwise (in particular, when all resets are more
than 5 minutes away, the failure is the generic error, not the typed
one). -/
theorem getClient_exhaustion_classification (p : TokenPool) (now : Int)
    (upd : Nat → RateLimitFetch) (hupd : ∀ i, upd i = .ok none)
    (hne : p.tokens ≠ []) (hidx : p.currentIndex < p.tokens.length)
    (hnow : 0 ≤ now)
    (hall : ∀ t ∈ p.tokens, t.depleted now = true) :
    (p.getClient upd now).1 =
      if p.getNextResetTime - now < 300 then
        GetClientResult.exhausted p.getNextResetTime
      else GetClientResult.noAvailable := by
  have hgt : now < p.getNextResetTime := getNextResetTime_gt p now hne hall
  have hm : p.getNextResetTime ≠ 0 := by omega
  have hNpos : 0 < p.tokens.length := List.length_pos.mpr hne
  unfold TokenPool.getClient
  exact getClientLoop_all_depleted p now upd hupd p.tokens.length rfl p.currentIndex
    hidx hall hm p.tokens.length p 0 0 (by omega) hNpos rfl
    (by rw [Nat.add_zero, Nat.mod_eq_of_lt hidx])

/-- C3 witness: the amended theorem applied to a two-credential pool,
all depleted, earliest reset 60s away (within the horizon): the typed
exhausted error with that reset time. -/
theorem getClient_exhaustion_classification_witness :
    (∀ t ∈ poolSoon.tokens, t.depleted 1000 = true)
    ∧ (poolSoon.getClient upd0 1000).1 =
        (if poolSoon.getNextResetTime - 1000 < 300 then
          GetClientResult.exhausted poolSoon.getNextResetTime
        else GetClientResult.noAvailable) :=
  ⟨by decide, getClient_exhaustion_classification poolSoon 1000 upd0 (fun _ => rfl)
    (by decide) (by decide) (by decide) (by decide)⟩


end GHM
